import Mathlib

set_option maxRecDepth 100000

/-!
# Verification of the hybrid retrieval / context-assembly pipeline

A shallow embedding of the chat-agent pipeline from `src/ChatAgent.ts`
(`ChatAgent.fetch`, `ChatAgent.extractRelevantPortion`,
`ChatAgent.getDocumentContent`) of the Cloudflare compliance agent.

Strings are modelled with Lean `String` (the source operates on JS strings;
all inputs of interest are ASCII, where JS UTF-16 `length`/`substring`
coincide with Lean's character counts).  Stateful external dependencies
(AI binding, vector DB, KV, R2, durable-object storage) are modelled as an
explicit environment record; fallible calls return `Except`.
-/

namespace ComplianceAgent

/-! ## JS string and list primitives -/

/-- JS `s.includes(pat)`: substring containment. -/
def strContains (s pat : String) : Bool :=
  decide (List.IsInfix pat.toList s.toList)

/-- JS `s.slice(-n)` on arrays: the suffix of the last `n` elements
(the whole list when it is shorter than `n`). -/
def jsSliceLast (n : Nat) (l : List α) : List α :=
  l.drop (l.length - n)

/-- JS `s.toLowerCase()` (ASCII model; kernel-computable). -/
def toLowerStr (s : String) : String :=
  ⟨s.toList.map Char.toLower⟩

/-- JS `s.substring(0, n)`: the first `n` characters. -/
def strTake (s : String) (n : Nat) : String :=
  ⟨s.toList.take n⟩

/-- Split a character list at every character satisfying `p`; `n`
delimiters produce `n + 1` (possibly empty) pieces, exactly like
`String.split`. -/
def splitByAux (p : Char → Bool) : List Char → List Char → List (List Char)
  | [], acc => [acc.reverse]
  | c :: cs, acc =>
    if p c then acc.reverse :: splitByAux p cs []
    else splitByAux p cs (c :: acc)

def splitBy (p : Char → Bool) (s : String) : List String :=
  (splitByAux p s.toList []).map (fun l => ⟨l⟩)

/-- JS `s.join(sep)` / `String.intercalate`. -/
def joinSep (sep : String) : List String → String
  | [] => ""
  | [x] => x
  | x :: xs => x ++ sep ++ joinSep sep xs

/-- JS `message.toLowerCase().split(/\s+/).filter(Boolean)`: lower-cased
whitespace-delimited tokens with empty tokens removed (splitting on `/\s+/`
only ever produces an empty token at a boundary, which `filter(Boolean)`
removes; splitting at every whitespace character and dropping empty pieces
yields the same token list). -/
def jsWords (m : String) : List String :=
  (splitBy Char.isWhitespace (toLowerStr m)).filter (fun w => w ≠ "")

/-! ## Term-occurrence counting (`lowerContent.match(new RegExp(w, 'g'))`)

The source counts per-term hits with a global regular expression built from
the raw query token.  We embed JS regex semantics for the fragment of
patterns actually expressible by plain query words: every character of the
pattern is a literal except `.`, which matches any character other than a
line terminator.  Patterns in this fragment have fixed length, so JS
matching is leftmost, non-overlapping, resuming after each match.
Query tokens containing other regex metacharacters are outside the scope of
this embedding. -/

/-- A JS regex line terminator (not matched by `.`). -/
def isLineTerminator (c : Char) : Bool :=
  c = '\n' || c = '\r' || c = Char.ofNat 0x2028 || c = Char.ofNat 0x2029

/-- Try to match the pattern at the head of `s`; on success return the
remainder of `s` after the matched portion. -/
def patMatchAt : List Char → List Char → Option (List Char)
  | [], s => some s
  | _ :: _, [] => none
  | p :: ps, c :: cs =>
    if p = '.' then
      if isLineTerminator c then none else patMatchAt ps cs
    else if p = c then patMatchAt ps cs else none

/-- Leftmost, non-overlapping count of matches of a non-empty pattern.
Structural recursion on a fuel argument so that the definition
kernel-reduces; with a non-empty pattern every recursive call strictly
shrinks the subject, so fuel `s.length` is never exhausted
(`countMatchesAux_fuel`). -/
def countMatchesAux (pat : List Char) : Nat → List Char → Nat
  | 0, _ => 0
  | fuel + 1, s =>
    match patMatchAt pat s with
    | some rest => 1 + countMatchesAux pat fuel rest
    | none =>
      match s with
      | [] => 0
      | _ :: t => countMatchesAux pat fuel t

/-- The number of matches JS `str.match(new RegExp(w, 'g'))` reports (the
array length, `0` for `null`), for patterns in the modelled fragment.  An
empty pattern matches once at every position (JS returns `length + 1`
empty matches). -/
def countTermMatches (w content : String) : Nat :=
  if w.toList = [] then content.toList.length + 1
  else countMatchesAux w.toList content.toList.length content.toList

/-- The number of positions at which `w` occurs as a literal substring of
`s` (occurrences may overlap).  This is the reading of the spec sentence
"count total term occurrences (case-insensitive substring match per term)";
it is compared against the source's regex-based count. -/
def specCountOccurrences (w s : String) : Nat :=
  ((List.range (s.toList.length + 1)).filter
    (fun p => List.isPrefixOf w.toList (s.toList.drop p))).length

/-! ## Section-marker detection (`/section\s+\d+|[A-Z]\.\d+/i.test(line)`) -/

/-- Case-insensitively match the literal lowercase pattern at the head,
returning the remainder. -/
def startsWithCI : List Char → List Char → Option (List Char)
  | [], s => some s
  | _ :: _, [] => none
  | p :: ps, c :: cs => if c.toLower = p then startsWithCI ps cs else none

/-- After at least the first whitespace character has been consumed:
`\s*\d` matches here iff the first non-whitespace character is a digit
(every backtracking choice of `\s+` ends just before a non-whitespace
character or inside the run, where only the first non-whitespace character
can be the required digit). -/
def afterWsDigit : List Char → Bool
  | [] => false
  | c :: cs => if c.isWhitespace then afterWsDigit cs else c.isDigit

/-- Pattern `section\s+\d` (case-insensitive) matches starting at this position. -/
def sectionHere (s : List Char) : Bool :=
  match startsWithCI ['s', 'e', 'c', 't', 'i', 'o', 'n'] s with
  | none => false
  | some rest =>
    match rest with
    | [] => false
    | c :: cs => c.isWhitespace && afterWsDigit cs

/-- Pattern `[A-Z]\.\d` with the `i` flag (an ASCII letter, a dot, a digit)
matches starting at this position. -/
def letterDotDigitHere : List Char → Bool
  | a :: '.' :: d :: _ => a.isAlpha && d.isDigit
  | _ => false

def isSectionMarkerAux : List Char → Bool
  | [] => false
  | c :: rest =>
    sectionHere (c :: rest) || letterDotDigitHere (c :: rest) ||
      isSectionMarkerAux rest

/-- JS `/section\s+\d+|[A-Z]\.\d+/i.test(line)`: the line contains a
section marker.  (`.test` only asks for existence, so the trailing `\d+`
beyond its first digit is irrelevant.) -/
def isSectionMarker (line : String) : Bool :=
  isSectionMarkerAux line.toList

/-! ## Relevance Extractor (`ChatAgent.extractRelevantPortion`) -/

/-- Source `query.toLowerCase().split(/\s+/).filter(w => w.length > 3)` (the
length filter subsumes dropping empty pieces). -/
def extractKeywords (query : String) : List String :=
  (splitBy Char.isWhitespace (toLowerStr query)).filter
    (fun w => 3 < w.toList.length)

/-- The score the source assigns to one line: `+10` for each query keyword
contained in the lower-cased line (per keyword, not per occurrence), `+5`
if the line matches the section-marker pattern. -/
def lineScore (queryWords : List String) (line : String) : Nat :=
  10 * queryWords.countP (fun w => strContains (toLowerStr line) w) +
    (if isSectionMarker line then 5 else 0)

/-- Grouping loop over `sortedIndices`: extend `currentChunk` while indices
are consecutive, flush on a gap, flush the remainder at the end
(`current` holds the chunk in reverse). -/
def groupRunsAux (current : List Nat) : List Nat → List (List Nat)
  | [] => [current.reverse]
  | i :: rest =>
    match current with
    | [] => groupRunsAux [i] rest
    | c :: _ =>
      if i = c + 1 then groupRunsAux (i :: current) rest
      else current.reverse :: groupRunsAux [i] rest

/-- Split an ascending index list into maximal consecutive runs. -/
def groupRuns : List Nat → List (List Nat)
  | [] => []
  | i :: rest => groupRunsAux [i] rest

/-- The indices of lines with a positive score (the source's `relevant`,
keeping only the `idx` field, which is all later steps use). -/
def relevantIndices (queryWords : List String) (lines : List String) : List Nat :=
  ((lines.enum).filter (fun p => 0 < lineScore queryWords p.2)).map
    (fun p => p.1)

/-- The source's `sortedIndices`: the union of the ±10-line windows around
each relevant index, ascending and duplicate-free.  The source accumulates
the clamped windows into a `Set<number>` and then sorts numerically;
filtering the ascending `List.range` by window membership produces the
same sorted, duplicate-free set (windows are already clamped to
`[0, lines.length)`). -/
def windowIndices (relevantIdx : List Nat) (numLines : Nat) : List Nat :=
  (List.range numLines).filter
    (fun i => relevantIdx.any (fun r => r ≤ i + 10 && i ≤ r + 10))

/-- The source's `chunks`: maximal consecutive runs of `sortedIndices`,
each rendered by joining its lines with a newline. -/
def buildChunks (lines : List String) (sortedIndices : List Nat) : List String :=
  (groupRuns sortedIndices).map
    (fun run => joinSep "\n" (run.map (fun ci => lines.getD ci "")))

/-- The source's `lines` variable: `content.split('\n')`. -/
def docLines (content : String) : List String :=
  splitBy (fun c => c = '\n') content

/-- Source `ChatAgent.extractRelevantPortion(content, query)`. -/
def extractRelevantPortion (content query : String) : String :=
  if content.toList.length ≤ 8000 then content
  else if (relevantIndices (extractKeywords query) (docLines content)).isEmpty then
    strTake content 6000
  else
    strTake
      (joinSep "\n...\n"
        (buildChunks (docLines content)
          (windowIndices
            (relevantIndices (extractKeywords query) (docLines content))
            (docLines content).length))) 6000

/-! ## The chat pipeline (`ChatAgent.fetch`)

The durable object's environment is modelled as a record of the external
dependencies the handler consults:

* `history` — the value `state.storage.get('history')` resolves to
  (`undefined` coalesces to `[]` before the model is built, so the model
  takes the resolved list);
* `embed` — `ai.run('@cf/baai/bge-base-en-v1.5', …)` followed by
  `.data[0]`; a thrown error or malformed shape is the `.error` case;
* `vdb` — `env.DOCS_VECTORDB`: `none` models a missing binding or one
  whose `query` member is not callable (the source's runtime capability
  check); `some q` models a callable `query(vector, {topK, …})`, whose
  call may throw (`.error`) or return a match list;
* `kvList` — the fallback path's `COMPLIANCE_KV.list({prefix:'doc:'})`
  together with the per-key metadata reads, resolved into entries
  (`metadata = none` models a missing value or a `JSON.parse` failure,
  both of which the source skips); a thrown `list` call is `.error` and
  propagates to the top-level catch;
* `getContent` — `getDocumentContent(id)`: R2-then-KV lookup whose
  internal errors are caught and returned as `null` (`none`);
* `generate` — `ai.run('@cf/meta/llama-2-7b-chat-int8', …)` composed with
  the response-shape normalisation (plain string / drained stream /
  `{response}` field / stringified fallback), so its success value is the
  final `responseText`;
* `putOk` — whether `state.storage.put('history', …)` succeeds;
* `now` — `Date.now()` (the source samples it several times per turn; the
  claims never inspect timestamps, so one sample per turn is used).

Timestamps, scores and metadata are carried through untouched.  Vector
scores are modelled as rationals. -/

inductive Role
  | system
  | user
  | assistant
deriving DecidableEq, Repr

structure ChatMessage where
  role : Role
  content : String
  timestamp : Nat
deriving DecidableEq, Repr

/-- One element of `searchResults.matches` (with `returnMetadata: true`):
id, score, and the metadata fields the handler reads. -/
structure VMatch where
  id : String
  score : Rat
  title : String
  dtype : String
deriving DecidableEq, Repr

/-- One element of `validResults` (the source's per-document record
`{documentId, content, score, metadata: {title, type}}`). -/
structure Candidate where
  documentId : String
  content : String
  score : Rat
  title : String
  dtype : String
deriving DecidableEq, Repr

structure DocMetadata where
  title : String
  dtype : String
deriving DecidableEq, Repr

/-- One key of `COMPLIANCE_KV.list({prefix:'doc:'})` with its resolved
metadata read. -/
structure KVEntry where
  name : String
  metadata : Option DocMetadata
deriving DecidableEq, Repr

structure Citation where
  title : String
  dtype : String
  relevanceScore : Rat
deriving DecidableEq, Repr

structure DebugInfo where
  documentsFound : Nat
  contextLength : Nat
  promptLength : Nat
deriving DecidableEq, Repr

/-- The three response shapes `ChatAgent.fetch` produces: the early 400
for a missing/empty `message` parameter, the 200 JSON success body, and
the 500 structured failure from the top-level catch. -/
inductive ChatResponse
  | missingMessage
  | ok (response : String) (context : List Citation) (debug : DebugInfo)
  | failure (details : String)
deriving DecidableEq, Repr

def ChatResponse.status : ChatResponse → Nat
  | .missingMessage => 400
  | .ok .. => 200
  | .failure _ => 500

/-- The observable outcome of one `fetch`: the HTTP response and the
durable `history` value after the call. -/
structure FetchResult where
  response : ChatResponse
  history : List ChatMessage
deriving DecidableEq, Repr

structure ChatEnv where
  history : List ChatMessage
  embed : String → Except String (List Int)
  vdb : Option (List Int → Nat → Except String (List VMatch))
  kvList : Except String (List KVEntry)
  getContent : String → Option String
  generate : List ChatMessage → Except String String
  putOk : Bool
  now : Nat

/-! ### Vector search with prefix deduplication (source lines 596–641) -/

/-- The body of the `searchResults.matches.map` callback together with the
`filter(Boolean)`: resolve content (drop the match when it is missing or
empty — `if (!content)`), fingerprint the first 200 characters, and drop
the match when the fingerprint was already seen.  The source runs the
callbacks under `Promise.all`; each callback's has/add pair runs
atomically after its content fetch, and fetches are modelled as resolving
in rank order, which is the deterministic sequentialisation. -/
def dedupeGo (g : String → Option String) : List VMatch → List String → List Candidate
  | [], _ => []
  | m :: rest, seen =>
    match g m.id with
    | none => dedupeGo g rest seen
    | some content =>
      if content = "" then dedupeGo g rest seen
      else if seen.contains (strTake content 200) then dedupeGo g rest seen
      else ⟨m.id, content, m.score, m.title, m.dtype⟩ ::
        dedupeGo g rest (strTake content 200 :: seen)

def dedupeMatches (ms : List VMatch) (g : String → Option String) : List Candidate :=
  dedupeGo g ms []

/-- One match callback's resolution *without* the dedup filter: the
candidate it yields unless content is missing or empty.  Used to state
what `dedupeMatches` preserves. -/
def resolveMatch (g : String → Option String) (m : VMatch) : Option Candidate :=
  match g m.id with
  | none => none
  | some content =>
    if content = "" then none
    else some ⟨m.id, content, m.score, m.title, m.dtype⟩

/-- The vector-search step: capability check (`typeof query === 'function'`),
`query(embedding, {topK: 3, returnMetadata: true})` with every thrown
error caught and turned into an empty result, then prefix deduplication. -/
def vectorSearchStep (vdb : Option (List Int → Nat → Except String (List VMatch)))
    (emb : List Int) (g : String → Option String) : List Candidate :=
  match vdb with
  | none => []
  | some q =>
    match q emb 3 with
    | .error _ => []
    | .ok ms => dedupeMatches ms g

/-! ### Lexical fallback scoring (source lines 644–704) -/

/-- The `score` for one document: for each query word, the number of matches
of `new RegExp(w, 'g')` against the lower-cased content, summed. -/
def docScore (qWords : List String) (content : String) : Nat :=
  (qWords.map (fun w => countTermMatches w (toLowerStr content))).sum

/-- The body of the fallback loop for one listed key: skip `:content`
keys, skip keys with missing/unparsable metadata, extract the id as
`name.split(':')[1]` (skipping falsy ids), skip missing/empty content
(`if (!contentText)`), and keep the document iff its score is positive.
A per-document exception (`catch … continue`) corresponds to the skipping
cases. -/
def lexicalScoreEntry (qWords : List String) (g : String → Option String)
    (e : KVEntry) : Option Candidate :=
  if strContains e.name ":content" then none
  else
    match e.metadata with
    | none => none
    | some md =>
      match (splitBy (fun c => c = ':') e.name).get? 1 with
      | none => none
      | some id =>
        if id = "" then none
        else
          match g id with
          | none => none
          | some content =>
            if content = "" then none
            else if 0 < docScore qWords content then
              some ⟨id, content, (docScore qWords content : Rat), md.title, md.dtype⟩
            else none

/-- The comparator's order: `scored.sort((a, b) => b.score - a.score)`
keeps `a` before `b` when `b.score ≤ a.score`. -/
def scoreGE (a b : Candidate) : Prop := b.score ≤ a.score

instance : DecidableRel scoreGE :=
  fun a b => inferInstanceAs (Decidable (b.score ≤ a.score))

instance : IsTotal Candidate scoreGE := ⟨fun a b => le_total b.score a.score⟩

instance : IsTrans Candidate scoreGE := ⟨fun _ _ _ h h' => le_trans h' h⟩

/-- The whole fallback: score every listed document in list order, keep
positive scores, sort descending by score and take the first two.
`Array.prototype.sort` is stable (ECMAScript 2019), so it is embedded as
the stable `insertionSort` under `scoreGE`. -/
def lexicalFallback (message : String) (entries : List KVEntry)
    (g : String → Option String) : List Candidate :=
  ((entries.filterMap (lexicalScoreEntry (jsWords message) g)).insertionSort
    scoreGE).take 2

/-! ### Retrieval, context assembly and the handler (source lines 574–841) -/

/-- The fallback branch of `Retrieve`: a thrown `KV.list` propagates, a
successful listing is scored lexically. -/
def fallbackRetrieve (message : String) (g : String → Option String) :
    Except String (List KVEntry) → Except String (List Candidate)
  | .error e => .error e
  | .ok entries => .ok (lexicalFallback message entries g)

/-- State `Retrieve`: vector search first; the keyword fallback runs exactly
when it produced no usable results (`!validResults || length === 0`).
(The deployed configuration always has `COMPLIANCE_KV` bound; the
`if (this.env.COMPLIANCE_KV)` guard is modelled as taken.) -/
def retrieveCandidates (message : String) (env : ChatEnv) (emb : List Int) :
    Except String (List Candidate) :=
  match vectorSearchStep env.vdb emb env.getContent with
  | [] => fallbackRetrieve message env.getContent env.kvList
  | v => .ok v

def SYSTEM_PROMPT : String :=
  "You are a Data Privacy Compliance Officer. You must ONLY use information from the documents provided below.\n\nABSOLUTE RULES:\n- ONLY cite information that appears in the document text below\n- If you see a section number in the document (like \"Section 2\" or \"B.1\"), use it\n- Quote the exact text from the document\n- If the answer is not in the document, say \"This information is not in the provided policy\"\n- DO NOT use any information from your training data\n- DO NOT make up section numbers or quotes"

/-- One document's block in `documentContext` (the template literal of the
context-building loop). -/
def renderDoc (message : String) (d : Candidate) : String :=
  "\n=== POLICY DOCUMENT: " ++ d.title ++ " ===\nTYPE: " ++ d.dtype ++
    "\n\n" ++ extractRelevantPortion d.content message ++
    "\n\n=== END DOCUMENT ===\n\n"

/-- Variable `documentContext`: the concatenation of the per-document blocks in
candidate order (`''` when there are no candidates). -/
def documentContext (message : String) (cands : List Candidate) : String :=
  String.join (cands.map (renderDoc message))

/-- Variable `systemMessage`: the fixed instruction template with either the
document context block or the no-documents notice. -/
def systemContent (message : String) (cands : List Candidate) : String :=
  if 0 < cands.length then
    SYSTEM_PROMPT ++ "\n\nHere are the policy documents you must reference:\n\n" ++
      documentContext message cands ++
      "\n\nRemember: ONLY use information from the documents above. Quote exact text. Use actual section numbers from the documents."
  else
    SYSTEM_PROMPT ++
      "\n\nNO POLICY DOCUMENTS AVAILABLE. You cannot answer compliance questions without documents."

/-- Variable `aiMessages`: (1) the system message, (2) `history.slice(-2)` (the
source pushes it only when non-empty, which equals unconditional
concatenation), (3) the current user message. -/
def buildMessages (message : String) (cands : List Candidate)
    (history : List ChatMessage) (now : Nat) : List ChatMessage :=
  ⟨.system, systemContent message cands, now⟩ ::
    (jsSliceLast 2 history ++ [⟨.user, message, now⟩])

/-- The tail of the `try` block after a successful retrieval and the
generation call: a thrown generation is the structured 500; on success
the history is trimmed and stored (`putOk` failing is again the 500 with
the stored history untouched), and the 200 body carries the response
text, the citation list in candidate order, and the debug block.
The stages (`stepGenerate`, `stepRetrieve`, `processMessage`) are one
sequential `try` block in the source, staged here so each external
call's result is a top-level pattern. -/
def stepGenerate (message : String) (env : ChatEnv)
    (validResults : List Candidate) : Except String String → FetchResult
  | .error e => ⟨.failure e, env.history⟩
  | .ok responseText =>
    if env.putOk then
      ⟨.ok responseText
        (validResults.map (fun d => ⟨d.title, d.dtype, d.score⟩))
        ⟨validResults.length,
          (documentContext message validResults).toList.length,
          (systemContent message validResults).toList.length⟩,
        jsSliceLast 10 (env.history ++
          [⟨.user, message, env.now⟩, ⟨.assistant, responseText, env.now⟩])⟩
    else ⟨.failure "storage put failed", env.history⟩

def stepRetrieve (message : String) (env : ChatEnv) :
    Except String (List Candidate) → FetchResult
  | .error e => ⟨.failure e, env.history⟩
  | .ok validResults =>
    stepGenerate message env validResults
      (env.generate (buildMessages message validResults env.history env.now))

def stepEmbed (message : String) (env : ChatEnv) :
    Except String (List Int) → FetchResult
  | .error e => ⟨.failure e, env.history⟩
  | .ok emb => stepRetrieve message env (retrieveCandidates message env emb)

/-- The `try` block of `ChatAgent.fetch` for a present, non-empty
`message`: embed, retrieve (with fallback), assemble, generate, persist,
respond; every `.error` of an external call is the top-level catch's
structured 500, and the history value is committed only by the final
successful `put`. -/
def processMessage (message : String) (env : ChatEnv) : FetchResult :=
  stepEmbed message env (env.embed message)

/-- Source `ChatAgent.fetch`: `url.searchParams.get('message')` is `none` when
absent; the guard `if (!message)` also rejects the empty string. -/
def chatFetch : Option String → ChatEnv → FetchResult
  | none, env => ⟨.missingMessage, env.history⟩
  | some message, env =>
    if message = "" then ⟨.missingMessage, env.history⟩
    else processMessage message env

instance {e a : Type} [DecidableEq e] [DecidableEq a] : DecidableEq (Except e a) := fun
  | .ok x, .ok y =>
    if h : x = y then .isTrue (by rw [h]) else .isFalse (by simp [h])
  | .error x, .error y =>
    if h : x = y then .isTrue (by rw [h]) else .isFalse (by simp [h])
  | .ok _, .error _ => .isFalse (by simp)
  | .error _, .ok _ => .isFalse (by simp)

/-! ## Concrete fixtures

Inputs used by the counterexamples and witnesses.  Documents exercising
the `> 8000`-character branch of the extractor are built from repeated
280-character lines. -/

/-- A 280-character line with no keywords and no section marker. -/
def xLine : String := ⟨List.replicate 280 'x'⟩

/-- A query whose keywords (`privacy`, `retention`, `periods`) occur in no
fixture line. -/
def cexQuery : String := "privacy retention periods"

/-- Thirty lines: a section-marker line at index 25 among x-lines. -/
def cexLines : List String :=
  List.replicate 25 xLine ++ ["Section 4"] ++ List.replicate 4 xLine

/-- An 8158-character document whose only scoring line is the
section-marker line at index 25. -/
def cexDoc : String := joinSep "\n" cexLines

/-- The lines of the single chunk the extractor produces for `cexDoc`:
indices 15–29. -/
def cexChunkLines : List String :=
  List.replicate 10 xLine ++ ["Section 4"] ++ List.replicate 4 xLine

/-- An 8429-character document with no keywords and no section markers. -/
def kwFreeLines : List String := List.replicate 30 xLine

def kwFreeDoc : String := joinSep "\n" kwFreeLines

/-- Content shared by two distinct stored documents (a duplicate upload). -/
def dupContent : String := "privacy policy duplicated text"

/-- An environment with the similarity index missing and two stored
documents that have identical content. -/
def dupEnv : ChatEnv :=
  { history := []
    embed := fun _ => .ok []
    vdb := none
    kvList := .ok [⟨"doc:a", some ⟨"A", "policy"⟩⟩, ⟨"doc:b", some ⟨"B", "policy"⟩⟩]
    getContent := fun _ => some dupContent
    generate := fun _ => .ok "resp"
    putOk := true
    now := 0 }

def dupCandA : Candidate := ⟨"a", dupContent, 1, "A", "policy"⟩

def dupCandB : Candidate := ⟨"b", dupContent, 1, "B", "policy"⟩

/-- Document content that the regex-based scorer matches for the query
term `b.1` (via `bx1`) although `b.1` never occurs as a substring. -/
def dotContent : String := "policy ref bx1 applies, see bx1"

def dotEntry : KVEntry := ⟨"doc:a", some ⟨"A", "policy"⟩⟩

/-- Content repository for the `dotEntry` fixture. -/
def dotG : String → Option String := fun _ => some dotContent

def dotCand : Candidate := ⟨"a", dotContent, 2, "A", "policy"⟩

/-- An environment with no vector index and no stored documents. -/
def emptyEnv : ChatEnv :=
  { history := []
    embed := fun _ => .ok []
    vdb := none
    kvList := .ok []
    getContent := fun _ => none
    generate := fun _ => .ok "nothing available"
    putOk := true
    now := 7 }

/-- An environment for driving one session turn: no documents anywhere,
current stored history `h`, and a generation call producing `r`. -/
def turnEnv (h : List ChatMessage) (r : String) : ChatEnv :=
  { history := h
    embed := fun _ => .ok []
    vdb := none
    kvList := .ok []
    getContent := fun _ => none
    generate := fun _ => .ok r
    putOk := true
    now := 0 }

/-- Iterate `chatFetch` over a list of (query, generated-answer) turns,
starting from the empty session history (`storage.get` of a fresh durable
object), threading the stored history through. -/
def runTurns (msgs : List (String × String)) : List ChatMessage :=
  msgs.foldl (fun h p => (chatFetch (some p.1) (turnEnv h p.2)).history) []

/-! ## Lemmas about the string primitives

Concrete documents exercising the `> 8000` branch are too large to
evaluate character-by-character inside `decide`, so the facts about them
are derived from these structural lemmas instead. -/

theorem patMatchAt_length_le {pat s rest : List Char}
    (h : patMatchAt pat s = some rest) : rest.length ≤ s.length := by
  induction pat generalizing s rest with
  | nil =>
    simp only [patMatchAt, Option.some.injEq] at h
    subst h; exact Nat.le_refl _
  | cons p ps ih =>
    cases s with
    | nil => simp [patMatchAt] at h
    | cons c cs =>
      simp only [patMatchAt] at h
      have : rest.length ≤ cs.length := by
        split_ifs at h <;> exact ih h
      simp only [List.length_cons]; omega

theorem patMatchAt_length_lt {pat s rest : List Char} (hp : pat ≠ [])
    (h : patMatchAt pat s = some rest) : rest.length < s.length := by
  cases pat with
  | nil => exact absurd rfl hp
  | cons p ps =>
    cases s with
    | nil => simp [patMatchAt] at h
    | cons c cs =>
      simp only [patMatchAt] at h
      have : rest.length ≤ cs.length := by
        split_ifs at h <;> exact patMatchAt_length_le h
      simp only [List.length_cons]; omega

/-- Fuel irrelevance: any fuel of at least `s.length` computes the same
count, so the fuel encoding is faithful. -/
theorem countMatchesAux_fuel {pat : List Char} (hp : pat ≠ []) :
    ∀ {f g : Nat} {s : List Char}, s.length ≤ f → s.length ≤ g →
      countMatchesAux pat f s = countMatchesAux pat g s := by
  intro f
  induction f with
  | zero =>
    intro g s hf _
    have : s = [] := List.length_eq_zero.mp (Nat.le_zero.mp hf)
    subst this
    cases g with
    | zero => rfl
    | succ g =>
      cases hpm : patMatchAt pat [] with
      | some rest => cases pat with
        | nil => exact absurd rfl hp
        | cons p ps => simp [patMatchAt] at hpm
      | none => simp [countMatchesAux, hpm]
  | succ f ih =>
    intro g s hf hg
    cases g with
    | zero =>
      have : s = [] := List.length_eq_zero.mp (Nat.le_zero.mp hg)
      subst this
      cases hpm : patMatchAt pat [] with
      | some rest => cases pat with
        | nil => exact absurd rfl hp
        | cons p ps => simp [patMatchAt] at hpm
      | none => simp [countMatchesAux, hpm]
    | succ g =>
      cases hpm : patMatchAt pat s with
      | some rest =>
        have hlt := patMatchAt_length_lt hp hpm
        simp only [countMatchesAux, hpm]
        have := ih (g := g) (s := rest) (by omega) (by omega)
        omega
      | none =>
        cases s with
        | nil => simp [countMatchesAux, hpm]
        | cons c t =>
          simp only [countMatchesAux, hpm]
          exact ih (g := g) (s := t)
            (by simp at hf; omega) (by simp at hg; omega)


theorem toList_mk (l : List Char) : (String.mk l).toList = l := rfl

theorem mk_toList (s : String) : String.mk s.toList = s := rfl

theorem toList_append (a b : String) : (a ++ b).toList = a.toList ++ b.toList := by
  cases a; cases b; rfl

theorem joinSep_cons_cons (sep x y : String) (xs : List String) :
    joinSep sep (x :: y :: xs) = x ++ sep ++ joinSep sep (y :: xs) := rfl

theorem joinSep_length (sep : String) (x : String) (xs : List String) :
    (joinSep sep (x :: xs)).toList.length =
      ((x :: xs).map (fun s => s.toList.length)).sum +
        xs.length * sep.toList.length := by
  induction xs generalizing x with
  | nil => simp [joinSep]
  | cons y ys ih =>
    rw [joinSep_cons_cons]
    simp only [toList_append, List.length_append, ih y, List.map_cons,
      List.sum_cons, List.length_cons]
    ring

theorem splitByAux_no_delim (p : Char → Bool) (l : List Char) :
    ∀ (cs acc : List Char), (∀ c ∈ l, p c = false) →
      splitByAux p (l ++ cs) acc = splitByAux p cs (l.reverse ++ acc) := by
  induction l with
  | nil => intro cs acc _; simp
  | cons c l ih =>
    intro cs acc h
    have hc : p c = false := h c (List.mem_cons_self ..)
    simp only [List.cons_append, splitByAux, hc, Bool.false_eq_true,
      if_false, List.reverse_cons, List.append_assoc, List.singleton_append]
    exact ih cs (c :: acc) (fun d hd => h d (List.mem_cons_of_mem _ hd))

theorem splitByAux_joinSep (p : Char → Bool) (nl : Char) (hnl : p nl = true) :
    ∀ (x : String) (ls : List String),
      (∀ s ∈ x :: ls, ∀ c ∈ s.toList, p c = false) →
      splitByAux p (joinSep (String.mk [nl]) (x :: ls)).toList [] =
        (x :: ls).map String.toList := by
  intro x ls
  induction ls generalizing x with
  | nil =>
    intro h
    have hx := h x (List.mem_cons_self ..)
    have := splitByAux_no_delim p x.toList [] [] hx
    simpa [joinSep, splitByAux] using this
  | cons y ys ih =>
    intro h
    have hx := h x (List.mem_cons_self ..)
    rw [joinSep_cons_cons]
    have hsplit : (x ++ String.mk [nl] ++ joinSep (String.mk [nl]) (y :: ys)).toList
        = x.toList ++ (nl :: (joinSep (String.mk [nl]) (y :: ys)).toList) := by
      simp [toList_append]
    rw [hsplit, splitByAux_no_delim p x.toList _ [] hx]
    simp only [splitByAux, hnl, if_true, List.append_nil, List.reverse_reverse]
    rw [ih y (fun s hs => h s (List.mem_cons_of_mem _ hs))]
    simp

/-- Re-splitting a newline-joined block recovers the original lines, as
long as no line contains the separator. -/
theorem splitBy_joinSep (p : Char → Bool) (nl : Char) (hnl : p nl = true)
    (x : String) (ls : List String)
    (h : ∀ s ∈ x :: ls, ∀ c ∈ s.toList, p c = false) :
    splitBy p (joinSep (String.mk [nl]) (x :: ls)) = x :: ls := by
  unfold splitBy
  rw [splitByAux_joinSep p nl hnl x ls h]
  simp [Function.comp_def, mk_toList]

theorem strTake_length (s : String) (n : Nat) :
    (strTake s n).toList.length = min n s.toList.length := by
  simp [strTake]

theorem ne_of_toList_length_ne {a b : String}
    (h : a.toList.length ≠ b.toList.length) : a ≠ b :=
  fun e => h (by rw [e])

/-! ## Facts about the fixture documents -/

theorem cexLines_eq_cons :
    cexLines = xLine ::
      (List.replicate 24 xLine ++ ["Section 4"] ++ List.replicate 4 xLine) := by
  simp [cexLines, List.replicate_succ]

theorem cex_no_nl :
    ∀ s ∈ cexLines, ∀ c ∈ s.toList, (fun c => decide (c = '\n')) c = false := by
  intro s hs
  simp only [cexLines, List.mem_append, List.mem_replicate,
    List.mem_singleton] at hs
  rcases hs with (⟨_, rfl⟩ | rfl) | ⟨_, rfl⟩ <;> decide

theorem cex_split : docLines cexDoc = cexLines := by
  have h := splitBy_joinSep (fun c => decide (c = '\n')) '\n' (by decide)
    xLine (List.replicate 24 xLine ++ ["Section 4"] ++ List.replicate 4 xLine)
    (by rw [← cexLines_eq_cons]; exact cex_no_nl)
  rw [docLines, cexDoc, cexLines_eq_cons]
  exact h

theorem cex_len : cexDoc.toList.length = 8158 := by
  rw [cexDoc, cexLines_eq_cons, joinSep_length]
  simp [List.map_append, List.map_replicate, List.sum_append,
    List.sum_replicate]
  decide

theorem cex_relevant :
    relevantIndices (extractKeywords cexQuery) cexLines = [25] := by decide

theorem cex_windows :
    windowIndices [25] cexLines.length =
      [15, 16, 17, 18, 19, 20, 21, 22, 23, 24, 25, 26, 27, 28, 29] := by decide

theorem cex_chunks :
    buildChunks cexLines
        [15, 16, 17, 18, 19, 20, 21, 22, 23, 24, 25, 26, 27, 28, 29] =
      [joinSep "\n" cexChunkLines] := by
  rw [buildChunks]
  have hg : groupRuns [15, 16, 17, 18, 19, 20, 21, 22, 23, 24, 25, 26, 27, 28, 29] =
      [[15, 16, 17, 18, 19, 20, 21, 22, 23, 24, 25, 26, 27, 28, 29]] := by decide
  rw [hg, List.map_singleton]
  have hm : [15, 16, 17, 18, 19, 20, 21, 22, 23, 24, 25, 26, 27, 28, 29].map
      (fun ci => cexLines.getD ci "") = cexChunkLines := by decide
  rw [hm]

theorem cex_chunk_len : (joinSep "\n" cexChunkLines).toList.length = 3943 := by
  have h : cexChunkLines = xLine ::
      (List.replicate 9 xLine ++ ["Section 4"] ++ List.replicate 4 xLine) := by
    simp [cexChunkLines, List.replicate_succ]
  rw [h, joinSep_length]
  simp [List.map_append, List.map_replicate, List.sum_append,
    List.sum_replicate]
  decide

theorem kwFree_split : docLines kwFreeDoc = kwFreeLines := by
  have hcons : kwFreeLines = xLine :: List.replicate 29 xLine := by
    simp [kwFreeLines, List.replicate_succ]
  have h := splitBy_joinSep (fun c => decide (c = '\n')) '\n' (by decide)
    xLine (List.replicate 29 xLine)
    (by
      rw [← hcons]
      intro s hs
      have hx : s = xLine := by simpa [kwFreeLines] using hs
      rw [hx]
      decide)
  rw [docLines, kwFreeDoc, hcons]
  exact h

theorem kwFree_len : kwFreeDoc.toList.length = 8429 := by
  have hcons : kwFreeLines = xLine :: List.replicate 29 xLine := by
    simp [kwFreeLines, List.replicate_succ]
  rw [kwFreeDoc, hcons, joinSep_length]
  simp [List.map_replicate, List.sum_replicate]
  decide

/-! ## C4 — small documents pass through unchanged -/

/-- C4: claim C4 as stated: for every query and every document whose content is at most
8000 characters, the Relevance Extractor returns the content unchanged. -/
theorem C4_theorem (content query : String)
    (h : content.toList.length ≤ 8000) :
    extractRelevantPortion content query = content := by
  rw [extractRelevantPortion, if_pos h]

theorem C4_witness :
    ("short policy" : String).toList.length ≤ 8000 ∧
      extractRelevantPortion "short policy" "any query" = "short policy" :=
  ⟨by decide, C4_theorem "short policy" "any query" (by decide)⟩

/-! ## C3 — the first-6000-characters fallback -/

/-- C3, counterexample: `cexDoc` is longer than 8000 characters and no
query keyword occurs in any of its lines (third conjunct, over the lines
established by the second conjunct), yet the extractor does not return the
first 6000 characters: the section-marker line at index 25 scores `+5`,
so the extractor returns the windowed chunk around it instead. -/
theorem C3_counterexample :
    8000 < cexDoc.toList.length ∧
    docLines cexDoc = cexLines ∧
    cexLines.all (fun line => (extractKeywords cexQuery).all
      (fun w => !strContains (toLowerStr line) w)) = true ∧
    extractRelevantPortion cexDoc cexQuery ≠ strTake cexDoc 6000 := by
  refine ⟨by rw [cex_len]; omega, cex_split, ?_, ?_⟩
  · rw [cexLines_eq_cons]
    decide
  · have hbig : ¬ cexDoc.toList.length ≤ 8000 := by rw [cex_len]; omega
    have hstep : extractRelevantPortion cexDoc cexQuery =
        strTake (joinSep "\n...\n" [joinSep "\n" cexChunkLines]) 6000 := by
      rw [extractRelevantPortion, if_neg hbig, cex_split, cex_relevant]
      rw [if_neg (by decide), cex_windows, cex_chunks]
    apply ne_of_toList_length_ne
    rw [hstep, strTake_length, strTake_length, cex_len]
    have hsingle : joinSep "\n...\n" [joinSep "\n" cexChunkLines] =
        joinSep "\n" cexChunkLines := rfl
    rw [hsingle, cex_chunk_len]
    decide

/-- C3, amended: for every document longer than 8000 characters and
every query such that no keyword occurs in any line *and no line matches
the section-marker pattern*, the extractor returns exactly the first 6000
characters.  (Without the section-marker condition the claim fails:
marker lines score `+5` even with zero keyword hits, see
`C3_counterexample`.) -/
theorem C3_theorem (content query : String)
    (hlen : 8000 < content.toList.length)
    (hkw : ∀ line ∈ docLines content, ∀ w ∈ extractKeywords query,
      strContains (toLowerStr line) w = false)
    (hsec : ∀ line ∈ docLines content, isSectionMarker line = false) :
    extractRelevantPortion content query = strTake content 6000 := by
  rw [extractRelevantPortion, if_neg (by omega)]
  have hrel : relevantIndices (extractKeywords query) (docLines content) = [] := by
    rw [relevantIndices, List.map_eq_nil_iff, List.filter_eq_nil_iff]
    intro p hp
    obtain ⟨i, line⟩ := p
    have hline : line ∈ docLines content := by
      have hz := List.of_mem_zip (by
        simpa [List.enum_eq_zip_range] using hp)
      exact hz.2
    have h1 : (extractKeywords query).countP
        (fun w => strContains (toLowerStr line) w) = 0 := by
      rw [List.countP_eq_zero]
      intro w hw
      simp [hkw line hline w hw]
    simp [lineScore, h1, hsec line hline]
  rw [hrel]
  simp

theorem C3_witness :
    8000 < kwFreeDoc.toList.length ∧
      extractRelevantPortion kwFreeDoc cexQuery = strTake kwFreeDoc 6000 := by
  have hlen : 8000 < kwFreeDoc.toList.length := by rw [kwFree_len]; omega
  refine ⟨hlen, C3_theorem kwFreeDoc cexQuery hlen ?_ ?_⟩
  · rw [kwFree_split]
    intro line hl
    have hx : line = xLine := by simpa [kwFreeLines] using hl
    rw [hx]
    decide
  · rw [kwFree_split]
    intro line hl
    have hx : line = xLine := by simpa [kwFreeLines] using hl
    rw [hx]
    decide

/-! ## C1 — prefix deduplication -/

theorem contains_iff_mem (seen : List String) (s : String) :
    seen.contains s = true ↔ s ∈ seen := by
  simp

theorem dedupeGo_not_seen (g : String → Option String) :
    ∀ (ms : List VMatch) (seen : List String),
      ∀ c ∈ dedupeGo g ms seen, strTake c.content 200 ∉ seen := by
  intro ms
  induction ms with
  | nil => intro seen c hc; simp [dedupeGo] at hc
  | cons m rest ih =>
    intro seen c hc
    simp only [dedupeGo] at hc
    cases hg : g m.id with
    | none =>
      rw [hg] at hc
      exact ih seen c hc
    | some content =>
      rw [hg] at hc
      simp only at hc
      by_cases hemp : content = ""
      · rw [if_pos hemp] at hc; exact ih seen c hc
      · rw [if_neg hemp] at hc
        by_cases hseen : seen.contains (strTake content 200)
        · rw [if_pos hseen] at hc; exact ih seen c hc
        · rw [if_neg hseen] at hc
          rcases List.mem_cons.mp hc with rfl | hmem
          · intro habs
            exact hseen ((contains_iff_mem seen _).mpr habs)
          · intro habs
            exact ih _ c hmem (List.mem_cons_of_mem _ habs)

theorem dedupeGo_pairwise (g : String → Option String) :
    ∀ (ms : List VMatch) (seen : List String),
      (dedupeGo g ms seen).Pairwise
        (fun a b => strTake a.content 200 ≠ strTake b.content 200) := by
  intro ms
  induction ms with
  | nil => intro seen; simp [dedupeGo]
  | cons m rest ih =>
    intro seen
    simp only [dedupeGo]
    cases hg : g m.id with
    | none => exact ih seen
    | some content =>
      simp only
      by_cases hemp : content = ""
      · rw [if_pos hemp]; exact ih seen
      · rw [if_neg hemp]
        by_cases hseen : seen.contains (strTake content 200)
        · rw [if_pos hseen]; exact ih seen
        · rw [if_neg hseen]
          refine List.pairwise_cons.mpr ⟨?_, ih _⟩
          intro b hb he
          exact dedupeGo_not_seen g rest _ b hb
            (he ▸ List.mem_cons_self _ _)

theorem dedupeGo_sublist (g : String → Option String) :
    ∀ (ms : List VMatch) (seen : List String),
      List.Sublist (dedupeGo g ms seen) (ms.filterMap (resolveMatch g)) := by
  intro ms
  induction ms with
  | nil => intro seen; simp [dedupeGo]
  | cons m rest ih =>
    intro seen
    simp only [dedupeGo, List.filterMap_cons]
    cases hg : g m.id with
    | none =>
      simp only [resolveMatch, hg]
      exact ih seen
    | some content =>
      simp only [resolveMatch, hg]
      by_cases hemp : content = ""
      · simp only [if_pos hemp]
        exact ih seen
      · simp only [if_neg hemp]
        by_cases hseen : seen.contains (strTake content 200)
        · rw [if_pos hseen]
          exact (ih seen).cons _
        · rw [if_neg hseen]
          exact (ih _).cons₂ _

theorem dedupeGo_covers (g : String → Option String) :
    ∀ (ms : List VMatch) (seen : List String) (m : VMatch) (c : Candidate),
      m ∈ ms → resolveMatch g m = some c →
      strTake c.content 200 ∈ seen ∨
        ∃ c' ∈ dedupeGo g ms seen,
          strTake c'.content 200 = strTake c.content 200 := by
  intro ms
  induction ms with
  | nil => intro seen m c hm; cases hm
  | cons m0 rest ih =>
    intro seen m c hm hres
    rcases List.mem_cons.mp hm with rfl | hmem
    · unfold resolveMatch at hres
      cases hg : g m.id with
      | none => rw [hg] at hres; cases hres
      | some content =>
        rw [hg] at hres
        simp only at hres
        by_cases hemp : content = ""
        · rw [if_pos hemp] at hres; cases hres
        · rw [if_neg hemp] at hres
          have hcc : c.content = content := by
            cases hres; rfl
          simp only [dedupeGo, hg]
          rw [if_neg hemp]
          by_cases hseen : seen.contains (strTake content 200)
          · left
            rw [hcc]
            exact (contains_iff_mem seen _).mp hseen
          · rw [if_neg hseen]
            right
            exact ⟨_, List.mem_cons_self _ _, by rw [hcc]⟩
    · simp only [dedupeGo]
      cases hg : g m0.id with
      | none => exact ih seen m c hmem hres
      | some content =>
        simp only
        by_cases hemp : content = ""
        · rw [if_pos hemp]; exact ih seen m c hmem hres
        · rw [if_neg hemp]
          by_cases hseen : seen.contains (strTake content 200)
          · rw [if_pos hseen]; exact ih seen m c hmem hres
          · rw [if_neg hseen]
            rcases ih (strTake content 200 :: seen) m c hmem hres with h | ⟨c', hc', he⟩
            · rcases List.mem_cons.mp h with heq | hseen2
              · right
                exact ⟨_, List.mem_cons_self _ _, heq.symm⟩
              · left; exact hseen2
            · right
              exact ⟨c', List.mem_cons_of_mem _ hc', he⟩

/-- C1, counterexample: with the similarity index unavailable and two
stored documents with identical content, the lexical fallback (which
performs no deduplication) returns both, so the final candidate list used
to build the context holds two distinct candidates whose first 200
characters of content are identical. -/
theorem C1_counterexample :
    retrieveCandidates "privacy" dupEnv [] = .ok [dupCandA, dupCandB] ∧
    dupCandA.documentId ≠ dupCandB.documentId ∧
    strTake dupCandA.content 200 = strTake dupCandB.content 200 := by
  refine ⟨by decide, by decide, rfl⟩

/-- C1, amended: the similarity-search path deduplicates by the first
200 characters of fetched content: its result list (1) never holds two
candidates with identical 200-character fingerprints, (2) is a sublist —
hence in rank order — of the resolved matches, and (3) keeps a
representative of every resolved match's fingerprint (the first
occurrence).  The lexical fallback path performs no such deduplication
(`C1_counterexample`). -/
theorem C1_theorem (ms : List VMatch) (g : String → Option String) :
    (dedupeMatches ms g).Pairwise
        (fun a b => strTake a.content 200 ≠ strTake b.content 200) ∧
    List.Sublist (dedupeMatches ms g) (ms.filterMap (resolveMatch g)) ∧
    (∀ m ∈ ms, ∀ c, resolveMatch g m = some c →
      ∃ c' ∈ dedupeMatches ms g,
        strTake c'.content 200 = strTake c.content 200) := by
  refine ⟨dedupeGo_pairwise g ms [], dedupeGo_sublist g ms [], ?_⟩
  intro m hm c hres
  rcases dedupeGo_covers g ms [] m c hm hres with h | h
  · cases h
  · exact h

theorem C1_witness :
    (⟨"m1", 1, "T", "policy"⟩ : VMatch) ∈ [(⟨"m1", 1, "T", "policy"⟩ : VMatch)] ∧
    resolveMatch (fun _ => some "body") ⟨"m1", 1, "T", "policy"⟩ =
      some ⟨"m1", "body", 1, "T", "policy"⟩ ∧
    ∃ c' ∈ dedupeMatches [⟨"m1", 1, "T", "policy"⟩] (fun _ => some "body"),
      strTake c'.content 200 = strTake "body" 200 :=
  ⟨List.mem_singleton.mpr rfl, by decide,
    ( C1_theorem [⟨"m1", 1, "T", "policy"⟩] (fun _ => some "body")).2.2
      ⟨"m1", 1, "T", "policy"⟩ (List.mem_singleton.mpr rfl)
      ⟨"m1", "body", 1, "T", "policy"⟩ (by decide)⟩

/-! ## C2 — the lexical fallback scorer -/

theorem lexicalScoreEntry_pos {qWords : List String}
    {g : String → Option String} {e : KVEntry} {c : Candidate}
    (h : lexicalScoreEntry qWords g e = some c) : 0 < c.score := by
  unfold lexicalScoreEntry at h
  by_cases h1 : strContains e.name ":content"
  · rw [if_pos h1] at h; cases h
  · rw [if_neg h1] at h
    rcases hm : e.metadata with _ | md
    · rw [hm] at h; cases h
    · rw [hm] at h
      dsimp only at h
      rcases hid : (splitBy (fun c => decide (c = ':')) e.name).get? 1 with _ | id
      · rw [hid] at h; cases h
      · rw [hid] at h
        dsimp only at h
        by_cases h2 : id = ""
        · rw [if_pos h2] at h; cases h
        · rw [if_neg h2] at h
          rcases hg : g id with _ | content
          · rw [hg] at h; cases h
          · rw [hg] at h
            dsimp only at h
            by_cases h3 : content = ""
            · rw [if_pos h3] at h; cases h
            · rw [if_neg h3] at h
              by_cases h4 : 0 < docScore qWords content
              · rw [if_pos h4] at h
                cases h
                show (0 : Rat) < ((docScore qWords content : Nat) : Rat)
                exact_mod_cast h4
              · rw [if_neg h4] at h; cases h

/-- Stability of `orderedInsert` under `scoreGE`, phrased through the
equal-score filter: inserting `c` walks past exactly the strictly greater
scores, so the relative order of any fixed score class is unchanged. -/
theorem filter_orderedInsert_score (k : Rat) (c : Candidate) (l : List Candidate) :
    (l.orderedInsert scoreGE c).filter (fun d => decide (d.score = k)) =
      if c.score = k then
        c :: l.filter (fun d => decide (d.score = k))
      else l.filter (fun d => decide (d.score = k)) := by
  induction l with
  | nil =>
    simp only [List.orderedInsert, List.filter]
    split_ifs with h <;> simp [h]
  | cons b l ih =>
    rw [List.orderedInsert]
    by_cases hcb : scoreGE c b
    · rw [if_pos hcb, List.filter_cons]
      split_ifs <;> simp_all
    · rw [if_neg hcb, List.filter_cons, ih, List.filter_cons]
      simp only [scoreGE] at hcb
      have hlt : c.score < b.score := lt_of_not_le hcb
      by_cases hbk : b.score = k
      · have hck : ¬ c.score = k := by
          intro hck
          rw [hck, ← hbk] at hlt
          exact lt_irrefl _ hlt
        simp [hbk, hck]
      · split_ifs <;> simp_all

/-- Stability of the whole sort: for every score value `k`, the elements
of score `k` appear in the sorted output in their original order. -/
theorem filter_insertionSort_score (k : Rat) (l : List Candidate) :
    (l.insertionSort scoreGE).filter (fun d => decide (d.score = k)) =
      l.filter (fun d => decide (d.score = k)) := by
  induction l with
  | nil => rfl
  | cons c l ih =>
    rw [List.insertionSort, filter_orderedInsert_score]
    simp only [List.filter]
    split_ifs with h <;> simp_all

/-- C2, counterexample: the fallback scorer compiles each query term
into a regular expression, so the term `b.1` (a term with a `.`) matches
`bx1`: the only stored document is returned with score 2, although `b.1`
occurs zero times as a literal substring of the (lower-cased) content —
under the claim's substring-occurrence scoring the document would have
score 0 and be discarded. -/
theorem C2_counterexample :
    jsWords "b.1" = ["b.1"] ∧
    lexicalFallback "b.1" [dotEntry] dotG = [dotCand] ∧
    specCountOccurrences "b.1" (toLowerStr dotContent) = 0 :=
  ⟨by decide, by decide, by decide⟩

/-- C2, amended: the fallback splits the query on whitespace into
lower-cased terms with no length filter, scores each stored document by
the summed number of *non-overlapping regular-expression matches* of each
term against the lower-cased full content (for metacharacter-free terms:
non-overlapping case-insensitive substring occurrences), discards score-0
documents, sorts descending by score with ties in original list order
(stable sort), and returns the top 2:
(1) the result is the 2-prefix of the stable descending sort of the
    surviving scored documents,
(2) every returned candidate has positive score,
(3) at most 2 are returned,
(4) the result is sorted descending by score,
(5) the sort is a permutation of the survivors, and
(6) for every score value the sort preserves the original relative order
    (stability). -/
theorem C2_theorem (message : String) (entries : List KVEntry)
    (g : String → Option String) :
    lexicalFallback message entries g =
      ((entries.filterMap (lexicalScoreEntry (jsWords message) g)).insertionSort
        scoreGE).take 2 ∧
    (∀ c ∈ lexicalFallback message entries g, 0 < c.score) ∧
    (lexicalFallback message entries g).length ≤ 2 ∧
    (lexicalFallback message entries g).Pairwise scoreGE ∧
    List.Perm
      ((entries.filterMap (lexicalScoreEntry (jsWords message) g)).insertionSort
        scoreGE)
      (entries.filterMap (lexicalScoreEntry (jsWords message) g)) ∧
    (∀ k : Rat,
      (((entries.filterMap (lexicalScoreEntry (jsWords message) g)).insertionSort
          scoreGE).filter (fun d => decide (d.score = k))) =
        (entries.filterMap (lexicalScoreEntry (jsWords message) g)).filter
          (fun d => decide (d.score = k))) := by
  refine ⟨rfl, ?_, ?_, ?_, List.perm_insertionSort scoreGE _,
    fun k => filter_insertionSort_score k _⟩
  · intro c hc
    have hmem : c ∈ (entries.filterMap
        (lexicalScoreEntry (jsWords message) g)).insertionSort scoreGE :=
      List.mem_of_mem_take hc
    rw [List.mem_insertionSort] at hmem
    obtain ⟨e, _, he⟩ := List.mem_filterMap.mp hmem
    exact lexicalScoreEntry_pos he
  · exact (List.length_take_le 2 _).trans (by omega)
  · exact (List.sorted_insertionSort scoreGE _).sublist (List.take_sublist 2 _)

theorem C2_witness :
    dotCand ∈ lexicalFallback "b.1" [dotEntry] dotG ∧ 0 < dotCand.score :=
  ⟨by decide,
    ( C2_theorem "b.1" [dotEntry] dotG).2.1 dotCand (by decide)⟩

/-! ## `jsSliceLast` lemmas -/

theorem jsSliceLast_length_le (n : Nat) (l : List α) :
    (jsSliceLast n l).length ≤ n := by
  simp only [jsSliceLast, List.length_drop]
  omega

theorem jsSliceLast_length_eq (n : Nat) (l : List α) :
    (jsSliceLast n l).length = min n l.length := by
  simp only [jsSliceLast, List.length_drop]
  omega

theorem jsSliceLast_suffix (n : Nat) (l : List α) :
    List.IsSuffix (jsSliceLast n l) l :=
  List.drop_suffix _ _

theorem jsSliceLast_append_pair (l : List α) (u a : α) :
    jsSliceLast 2 (l ++ [u, a]) = [u, a] := by
  simp only [jsSliceLast, List.length_append, List.length_cons,
    List.length_nil]
  rw [show l.length + (1 + 1) - 2 = l.length by omega]
  exact List.drop_left l [u, a]

theorem jsSliceLast_jsSliceLast (m n : Nat) (l : List α) :
    jsSliceLast m (jsSliceLast n l) = jsSliceLast (min m n) l := by
  simp only [jsSliceLast, List.drop_drop, List.length_drop]
  congr 1
  omega

/-! ## C5 — zero candidates still produce a successful response -/

/-- C5: when the similarity-search path yields no usable result, the
lexical fallback survives no document, generation succeeds and the store
accepts the write, the orchestrator returns the 200 response whose
citation list is empty, whose debug block records zero documents and an
empty context, and whose system instruction is the fixed template with
the no-documents notice. -/
theorem C5_theorem (env : ChatEnv) (message r : String) (emb : List Int)
    (entries : List KVEntry)
    (hembed : env.embed message = .ok emb)
    (hvec : vectorSearchStep env.vdb emb env.getContent = [])
    (hkv : env.kvList = .ok entries)
    (hlex : lexicalFallback message entries env.getContent = [])
    (hgen : env.generate (buildMessages message [] env.history env.now) = .ok r)
    (hput : env.putOk = true) :
    processMessage message env =
      ⟨.ok r [] ⟨0, 0, (systemContent message []).toList.length⟩,
        jsSliceLast 10 (env.history ++
          [⟨.user, message, env.now⟩, ⟨.assistant, r, env.now⟩])⟩ ∧
    systemContent message [] =
      SYSTEM_PROMPT ++
        "\n\nNO POLICY DOCUMENTS AVAILABLE. You cannot answer compliance questions without documents." := by
  have hret : retrieveCandidates message env emb = .ok [] := by
    rw [retrieveCandidates, hvec, hkv]
    simp [fallbackRetrieve, hlex]
  constructor
  · rw [processMessage, hembed]
    simp only [stepEmbed, hret, stepRetrieve, hgen, stepGenerate, hput,
      if_true, List.map_nil, List.length_nil]
    rfl
  · rfl

theorem C5_witness :
    processMessage "what is the policy" emptyEnv =
      ⟨.ok "nothing available" [] ⟨0, 0, 590⟩,
        [⟨.user, "what is the policy", 7⟩,
         ⟨.assistant, "nothing available", 7⟩]⟩ ∧
    systemContent "what is the policy" [] =
      SYSTEM_PROMPT ++
        "\n\nNO POLICY DOCUMENTS AVAILABLE. You cannot answer compliance questions without documents." := by
  have h := C5_theorem emptyEnv "what is the policy" "nothing available" [] []
    rfl rfl rfl rfl rfl rfl
  have hlen : (systemContent "what is the policy" []).toList.length = 590 := by
    decide
  refine ⟨?_, h.2⟩
  rw [h.1, hlen]
  rfl

/-! ## C6 — failures leave the session history unchanged -/

/-- C6: for every environment and message, `processMessage` either
fails — any thrown embedding / retrieval-listing / generation / storage
error becomes a structured failure response and the stored history is
exactly the prior history — or succeeds, in which case the embedding,
retrieval and generation all succeeded and the history is the prior
history plus the user/assistant pair (trimmed), committed only after the
successful generation. -/
theorem C6_theorem (env : ChatEnv) (message : String) :
    (∃ e, processMessage message env = ⟨.failure e, env.history⟩) ∨
    (∃ r emb cands,
      env.embed message = .ok emb ∧
      retrieveCandidates message env emb = .ok cands ∧
      env.generate (buildMessages message cands env.history env.now) = .ok r ∧
      (processMessage message env).history =
        jsSliceLast 10 (env.history ++
          [⟨.user, message, env.now⟩, ⟨.assistant, r, env.now⟩]) ∧
      (processMessage message env).response =
        .ok r (cands.map (fun d => ⟨d.title, d.dtype, d.score⟩))
          ⟨cands.length, (documentContext message cands).toList.length,
            (systemContent message cands).toList.length⟩) := by
  cases hembed : env.embed message with
  | error e =>
    refine .inl ⟨e, ?_⟩
    rw [processMessage, hembed]
    rfl
  | ok emb =>
    cases hret : retrieveCandidates message env emb with
    | error e =>
      refine .inl ⟨e, ?_⟩
      rw [processMessage, hembed]
      simp only [stepEmbed, hret, stepRetrieve]
    | ok cands =>
      cases hgen : env.generate (buildMessages message cands env.history env.now) with
      | error e =>
        refine .inl ⟨e, ?_⟩
        rw [processMessage, hembed]
        simp only [stepEmbed, hret, stepRetrieve, hgen, stepGenerate]
      | ok r =>
        cases hput : env.putOk with
        | false =>
          refine .inl ⟨"storage put failed", ?_⟩
          rw [processMessage, hembed]
          simp [stepEmbed, hret, stepRetrieve, hgen, stepGenerate, hput]
        | true =>
          have hproc : processMessage message env =
              ⟨.ok r (cands.map (fun d => ⟨d.title, d.dtype, d.score⟩))
                ⟨cands.length, (documentContext message cands).toList.length,
                  (systemContent message cands).toList.length⟩,
                jsSliceLast 10 (env.history ++
                  [⟨.user, message, env.now⟩,
                   ⟨.assistant, r, env.now⟩])⟩ := by
            rw [processMessage, hembed]
            simp only [stepEmbed, hret, stepRetrieve, hgen, stepGenerate,
              hput, if_true]
          exact .inr ⟨r, emb, cands, rfl, hret, hgen,
            by rw [hproc], by rw [hproc]⟩

/-! ## C7 — session history invariants across turns -/

theorem turn_history (h : List ChatMessage) (m r : String) (hm : m ≠ "") :
    (chatFetch (some m) (turnEnv h r)).history =
      jsSliceLast 10 (h ++ [⟨.user, m, 0⟩, ⟨.assistant, r, 0⟩]) := by
  simp only [chatFetch]
  rw [if_neg hm]
  rfl

theorem runTurns_length_suffix (msgs : List (String × String))
    (hmsg : ∀ p ∈ msgs, p.1 ≠ "") :
    (runTurns msgs).length ≤ 10 ∧
    List.IsSuffix (runTurns msgs)
      (msgs.flatMap (fun p => [⟨.user, p.1, 0⟩, ⟨.assistant, p.2, 0⟩])) := by
  induction msgs using List.reverseRecOn with
  | nil => exact ⟨by simp [runTurns], by simp [runTurns]⟩
  | append_singleton init p ih =>
    have hp : p.1 ≠ "" := hmsg p (by simp)
    have hinit := ih (fun q hq => hmsg q (by simp [hq]))
    have hstep : runTurns (init ++ [p]) =
        jsSliceLast 10 (runTurns init ++ [⟨.user, p.1, 0⟩, ⟨.assistant, p.2, 0⟩]) := by
      rw [runTurns, List.foldl_append]
      exact turn_history _ p.1 p.2 hp
    constructor
    · rw [hstep]; exact jsSliceLast_length_le _ _
    · rw [hstep, List.flatMap_append]
      refine (jsSliceLast_suffix _ _).trans ?_
      obtain ⟨t, ht⟩ := hinit.2
      exact ⟨t, by simp [← ht, List.flatMap_cons]⟩

/-- C7: starting from the empty history of a fresh session, each
successfully completed turn appends the user and assistant messages and
trims to the newest 10: after any non-empty sequence of turns the stored
history (1) never exceeds 10 messages, (2) is a suffix of the full
append-only log (oldest messages are the ones dropped), and (3) ends with
exactly the last turn's user/assistant pair. -/
theorem C7_theorem (msgs : List (String × String)) (hne : msgs ≠ [])
    (hmsg : ∀ p ∈ msgs, p.1 ≠ "") :
    (runTurns msgs).length ≤ 10 ∧
    List.IsSuffix (runTurns msgs)
      (msgs.flatMap (fun p => [⟨.user, p.1, 0⟩, ⟨.assistant, p.2, 0⟩])) ∧
    jsSliceLast 2 (runTurns msgs) =
      [⟨.user, (msgs.getLast hne).1, 0⟩,
       ⟨.assistant, (msgs.getLast hne).2, 0⟩] := by
  refine ⟨(runTurns_length_suffix msgs hmsg).1,
    (runTurns_length_suffix msgs hmsg).2, ?_⟩
  induction msgs using List.reverseRecOn with
  | nil => exact absurd rfl hne
  | append_singleton init p _ =>
    have hp : p.1 ≠ "" := hmsg p (by simp)
    have hstep : runTurns (init ++ [p]) =
        jsSliceLast 10 (runTurns init ++
          [⟨.user, p.1, 0⟩, ⟨.assistant, p.2, 0⟩]) := by
      rw [runTurns, List.foldl_append]
      exact turn_history _ p.1 p.2 hp
    rw [hstep, jsSliceLast_jsSliceLast,
      show min 2 10 = 2 by omega, jsSliceLast_append_pair]
    simp [List.getLast_append]

theorem C7_witness :
    (runTurns [("q1", "a1"), ("q2", "a2"), ("q3", "a3"), ("q4", "a4"),
      ("q5", "a5"), ("q6", "a6"), ("q7", "a7")]).length ≤ 10 ∧
    jsSliceLast 2 (runTurns [("q1", "a1"), ("q2", "a2"), ("q3", "a3"),
        ("q4", "a4"), ("q5", "a5"), ("q6", "a6"), ("q7", "a7")]) =
      [⟨.user, "q7", 0⟩, ⟨.assistant, "a7", 0⟩] := by
  have h := C7_theorem [("q1", "a1"), ("q2", "a2"), ("q3", "a3"),
    ("q4", "a4"), ("q5", "a5"), ("q6", "a6"), ("q7", "a7")]
    (by simp) (by decide)
  exact ⟨h.1, h.2.2⟩

/-! ## C8 — the similarity-search step degrades instead of raising -/

/-- C8: (1) a missing or malformed binding (no callable `query`)
yields the empty result instead of an error, (2) a query call that throws
yields the empty result instead of propagating, and (3) the step's result
depends only on the query call at `topK = 3`: two bindings whose `query`
agree at `topK = 3` produce identical results. -/
theorem C8_theorem (emb : List Int) (g : String → Option String) :
    vectorSearchStep none emb g = [] ∧
    (∀ q e, q emb 3 = .error e → vectorSearchStep (some q) emb g = []) ∧
    (∀ q q2, q emb 3 = q2 emb 3 →
      vectorSearchStep (some q) emb g = vectorSearchStep (some q2) emb g) := by
  refine ⟨rfl, ?_, ?_⟩
  · intro q e he
    simp [vectorSearchStep, he]
  · intro q q2 he
    simp [vectorSearchStep, he]

theorem C8_witness :
    vectorSearchStep (some (fun _ _ => Except.error "vector index down")) []
      (fun _ => none) = [] :=
  ( C8_theorem [] (fun _ => none)).2.1
    (fun _ _ => Except.error "vector index down") "vector index down" rfl

/-! ## C9 — the fixed message-sequence shape -/

/-- C9: the messages handed to the generation call are exactly: one
system message (the fixed template embedding either the document context
or the no-documents notice), then the session's last two stored messages
(`history.slice(-2)`: a suffix of the history of length `min 2 |history|`),
then the current user message — and nothing else. -/
theorem C9_theorem (message : String) (cands : List Candidate)
    (history : List ChatMessage) (now : Nat) :
    buildMessages message cands history now =
      ⟨.system, systemContent message cands, now⟩ ::
        (jsSliceLast 2 history ++ [⟨.user, message, now⟩]) ∧
    List.IsSuffix (jsSliceLast 2 history) history ∧
    (jsSliceLast 2 history).length = min 2 history.length ∧
    (cands ≠ [] → systemContent message cands =
      SYSTEM_PROMPT ++
        "\n\nHere are the policy documents you must reference:\n\n" ++
        documentContext message cands ++
        "\n\nRemember: ONLY use information from the documents above. Quote exact text. Use actual section numbers from the documents.") ∧
    (cands = [] → systemContent message cands =
      SYSTEM_PROMPT ++
        "\n\nNO POLICY DOCUMENTS AVAILABLE. You cannot answer compliance questions without documents.") := by
  refine ⟨rfl, jsSliceLast_suffix 2 history, jsSliceLast_length_eq 2 history,
    ?_, ?_⟩
  · intro hne
    rw [systemContent, if_pos (by
      cases cands with
      | nil => exact absurd rfl hne
      | cons c cs => simp)]
  · intro he
    rw [systemContent, if_neg (by simp [he])]

theorem C9_witness :
    systemContent "q" [dotCand] =
      SYSTEM_PROMPT ++
        "\n\nHere are the policy documents you must reference:\n\n" ++
        documentContext "q" [dotCand] ++
        "\n\nRemember: ONLY use information from the documents above. Quote exact text. Use actual section numbers from the documents." ∧
    systemContent "q" [] =
      SYSTEM_PROMPT ++
        "\n\nNO POLICY DOCUMENTS AVAILABLE. You cannot answer compliance questions without documents." :=
  ⟨( C9_theorem "q" [dotCand] [] 0).2.2.2.1 (by simp),
   ( C9_theorem "q" [] [] 0).2.2.2.2 rfl⟩

/-! ## C10 — missing message parameter -/

/-- C10: with no `message` parameter the handler returns the 400
response, the stored history is unchanged, and the outcome is independent
of every other dependency (embedding, search, storage, generation are
never consulted): two environments sharing only the stored history give
identical results. -/
theorem C10_theorem (env env2 : ChatEnv) (h : env.history = env2.history) :
    chatFetch none env = ⟨.missingMessage, env.history⟩ ∧
    (chatFetch none env).response.status = 400 ∧
    chatFetch none env = chatFetch none env2 := by
  refine ⟨rfl, rfl, ?_⟩
  simp [chatFetch, h]

theorem C10_witness :
    chatFetch none emptyEnv = ⟨.missingMessage, []⟩ ∧
    chatFetch none emptyEnv = chatFetch none dupEnv :=
  ⟨( C10_theorem emptyEnv dupEnv rfl).1,
   ( C10_theorem emptyEnv dupEnv rfl).2.2⟩

end ComplianceAgent
